import Mathlib

set_option maxHeartbeats 1000000
set_option maxRecDepth 8000
set_option autoImplicit false

namespace MITM

/-- JSON values, as produced by parsing newline-delimited protocol frames. -/
inductive Json where
  | null
  | bool (b : Bool)
  | num (n : Int)
  | str (s : String)
  | arr (items : List Json)
  | obj (fields : List (String × Json))

/-- Outcome with which a pending request's promise is settled
(`resolve`, `reject` with a remote error message, or the timeout rejection
constructed in `sendRequest`). -/
inductive Outcome where
  | resolved (result : Json)
  | rejected (errMsg : String)
  | timedOut

/-- A protocol response message after JSON parsing, reduced to the fields
`MCPClient.handleMessage` reads: `id` (0 embeds an absent, zero or otherwise
falsy/non-matching id — none of which can equal a live pending id, since
`getNextId` only produces positive integers), the truthy `error.message`
when present, and `result`. -/
structure Message where
  id : Nat
  error : Option String
  result : Json

/-- State of an `MCPClient`: the `messageId` counter, the keys of the
`pendingRequests` map in insertion order, a log of promise settlements
(each `(id, outcome)` records the single `resolve`/`reject` applied to the
pending entry for `id`), and the `connected` flag. -/
structure ClientState where
  messageId : Nat
  pending : List Nat
  settled : List (Nat × Outcome)
  connected : Bool

/-- JSON whitespace. -/
def isWs (c : Char) : Bool :=
  c = ' ' || c = '\n' || c = '\t' || c = '\r'

def skipWs : List Char → List Char
  | [] => []
  | c :: rest => if isWs c then skipWs rest else c :: rest

/-- JSON string escapes (the subset exchanged by the protocol envelopes;
unsupported escapes make the parse fail rather than mis-parse). -/
def escChar (c : Char) : Option Char :=
  if c = '"' then some '"'
  else if c = '\\' then some '\\'
  else if c = '/' then some '/'
  else if c = 'n' then some '\n'
  else if c = 't' then some '\t'
  else if c = 'r' then some '\r'
  else none

/-- Parse a JSON string body after the opening quote. -/
def parseStr : List Char → List Char → Option (String × List Char)
  | [], _ => none
  | c :: rest, acc =>
    if c = '"' then some (String.mk acc.reverse, rest)
    else if c = '\\' then
      match rest with
      | [] => none
      | e :: rest2 =>
        match escChar e with
        | some d => parseStr rest2 (d :: acc)
        | none => none
    else parseStr rest (c :: acc)

def takeDigits : List Char → (List Char × List Char)
  | [] => ([], [])
  | c :: rest =>
    if c.isDigit then
      let p := takeDigits rest
      (c :: p.1, p.2)
    else ([], c :: rest)

def digitsVal (ds : List Char) : Nat :=
  ds.foldl (fun n c => n * 10 + (c.toNat - 48)) 0

/-- Parse a JSON integer (the protocol's ids and error codes are integers;
fractions or exponents make the parse fail rather than mis-parse). -/
def parseNum : List Char → Option (Json × List Char)
  | '-' :: rest =>
    match takeDigits rest with
    | ([], _) => none
    | (_, '.' :: _) => none
    | (_, 'e' :: _) => none
    | (_, 'E' :: _) => none
    | (ds, r) => some (.num (-(digitsVal ds : Int)), r)
  | cs =>
    match takeDigits cs with
    | ([], _) => none
    | (_, '.' :: _) => none
    | (_, 'e' :: _) => none
    | (_, 'E' :: _) => none
    | (ds, r) => some (.num (digitsVal ds), r)

def parseLit : List Char → Option (Json × List Char)
  | 'n' :: 'u' :: 'l' :: 'l' :: r => some (.null, r)
  | 't' :: 'r' :: 'u' :: 'e' :: r => some (.bool true, r)
  | 'f' :: 'a' :: 'l' :: 's' :: 'e' :: r => some (.bool false, r)
  | _ => none

mutual

/-- Parse one JSON value (fuel-indexed recursive descent). -/
def parseVal : Nat → List Char → Option (Json × List Char)
  | 0, _ => none
  | fuel + 1, cs =>
    match skipWs cs with
    | [] => none
    | '"' :: rest => (parseStr rest []).map (fun p => (.str p.1, p.2))
    | '\x7b' :: rest =>
      match skipWs rest with
      | '\x7d' :: r2 => some (.obj [], r2)
      | r2 => parseMembers fuel r2 []
    | '[' :: rest =>
      match skipWs rest with
      | ']' :: r2 => some (.arr [], r2)
      | r2 => parseItems fuel r2 []
    | cs2 =>
      match parseLit cs2 with
      | some p => some p
      | none => parseNum cs2

/-- Parse the members of a JSON object after the opening brace. -/
def parseMembers : Nat → List Char → List (String × Json) → Option (Json × List Char)
  | 0, _, _ => none
  | fuel + 1, cs, acc =>
    match skipWs cs with
    | '"' :: rest =>
      match parseStr rest [] with
      | none => none
      | some (k, r2) =>
        match skipWs r2 with
        | ':' :: r3 =>
          match parseVal fuel r3 with
          | none => none
          | some (v, r4) =>
            match skipWs r4 with
            | ',' :: r5 => parseMembers fuel r5 ((k, v) :: acc)
            | '\x7d' :: r5 => some (.obj ((k, v) :: acc).reverse, r5)
            | _ => none
        | _ => none
    | _ => none

/-- Parse the items of a JSON array after the opening bracket. -/
def parseItems : Nat → List Char → List Json → Option (Json × List Char)
  | 0, _, _ => none
  | fuel + 1, cs, acc =>
    match parseVal fuel cs with
    | none => none
    | some (v, r) =>
      match skipWs r with
      | ',' :: r2 => parseItems fuel r2 (v :: acc)
      | ']' :: r2 => some (.arr (v :: acc).reverse, r2)
      | _ => none

end

/-- `JSON.parse`: the whole string must be exactly one JSON value
(surrounded by optional whitespace), else the parse throws (`none`). -/
def jparse (s : String) : Option Json :=
  match parseVal (s.length + 2) s.toList with
  | some (v, rest) => if skipWs rest = [] then some v else none
  | none => none

/-- Field lookup on a parsed JSON object. -/
def jlookup (fields : List (String × Json)) (k : String) : Option Json :=
  (fields.find? (fun p => p.1 == k)).map (fun p => p.2)

/-- JavaScript truthiness of a parsed JSON value. -/
def truthy : Json → Bool
  | .null => false
  | .bool b => b
  | .num n => decide (n ≠ 0)
  | .str s => !s.isEmpty
  | .arr _ => true
  | .obj _ => true

namespace MCPClient

/-- `getNextId`: `return ++this.messageId`. -/
def getNextId (s : ClientState) : Nat × ClientState :=
  (s.messageId + 1, { s with messageId := s.messageId + 1 })

/-- `sendRequest`: allocate the next id and register a pending entry for it
(the write to stdin has no effect on client state). -/
def sendRequest (s : ClientState) : ClientState :=
  let (id, s1) := getNextId s
  { s1 with pending := s1.pending ++ [id] }

/-- The settlement `handleMessage` applies: `message.error` truthy rejects
with `message.error.message || 'Unknown error'`, otherwise resolves with
`message.result`. -/
def settleOf (m : Message) : Outcome :=
  match m.error with
  | some e => .rejected (if e = "" then "Unknown error" else e)
  | none => .resolved m.result

/-- `handleMessage`: `if (message.id && this.pendingRequests.has(message.id))`
then delete the pending entry and settle it from the message; otherwise the
message is ignored. -/
def handleMessage (s : ClientState) (m : Message) : ClientState :=
  if m.id ≠ 0 ∧ m.id ∈ s.pending then
    { s with pending := s.pending.erase m.id,
             settled := s.settled ++ [(m.id, settleOf m)] }
  else s

/-- The timeout armed in `sendRequest` firing for `id`: if the entry is
still pending it is deleted and rejected with the timeout error
(`Request N timed out`). -/
def timeoutFire (s : ClientState) (id : Nat) : ClientState :=
  if id ∈ s.pending then
    { s with pending := s.pending.erase id,
             settled := s.settled ++ [(id, .timedOut)] }
  else s

/-- Process a list of inbound messages in arrival order. -/
def processMessages (s : ClientState) (ms : List Message) : ClientState :=
  ms.foldl handleMessage s

/-- A client state with the given ids outstanding and nothing settled. -/
def mkPending (ds : List Nat) : ClientState :=
  { messageId := ds.foldr max 0, pending := ds, settled := [], connected := true }

/-- `exit` event handler while a process is attached: it only logs and sets
`this.connected = false`; it touches neither `pendingRequests` nor any
promise. -/
def onExit (s : ClientState) : ClientState :=
  { s with connected := false }

/-- Events that can change the correlation state of a connected client. -/
inductive Event where
  | send
  | recv (m : Message)
  | fire (id : Nat)

def stepEv (s : ClientState) : Event → ClientState
  | .send => sendRequest s
  | .recv m => handleMessage s m
  | .fire id => timeoutFire s id

def runEvents (s : ClientState) (evs : List Event) : ClientState :=
  evs.foldl stepEv s

/-- The `Message` view `handleMessage` reads off a parsed JSON value: a
missing, non-object, non-integer, zero or negative `id` is embedded as 0
(either falsy or incapable of matching a positive pending id), `error` is
kept when truthy with its `message` string (non-string `message` is
embedded as `""`, which `settleOf` maps to `Unknown error`), and `result`
defaults to `null` when absent. -/
def msgOf (j : Json) : Message :=
  match j with
  | .obj fs =>
    { id :=
        match jlookup fs "id" with
        | some (.num n) => n.toNat
        | _ => 0
      error :=
        match jlookup fs "error" with
        | some e =>
          if truthy e then
            some
              (match e with
               | .obj efs =>
                 match jlookup efs "message" with
                 | some (.str s) => s
                 | _ => ""
               | _ => "")
          else none
        | none => none
      result := (jlookup fs "result").getD .null }
  | _ => { id := 0, error := none, result := .null }

/-- `split('\n')`: split a character list on newlines, keeping empty
segments exactly as the JavaScript `split` does. -/
def splitNl : List Char → List Char → List (List Char)
  | [], acc => [acc.reverse]
  | c :: rest, acc =>
    if c = '\n' then acc.reverse :: splitNl rest []
    else splitNl rest (c :: acc)

/-- `line.trim()` is truthy iff the line has a non-whitespace character. -/
def hasContent (l : List Char) : Bool :=
  l.any (fun c => !isWs c)

/-- `data.toString().split('\n').filter(line => line.trim())`. -/
def linesOf (chunk : String) : List String :=
  ((splitNl chunk.toList []).filter hasContent).map String.mk

/-- One iteration of the stdout data loop body: `JSON.parse(line)` then
`handleMessage`; a parse failure is logged and leaves the state unchanged. -/
def handleLine (s : ClientState) (line : String) : ClientState :=
  match jparse line with
  | some j => handleMessage s (msgOf j)
  | none => s

def processLines (s : ClientState) (ls : List String) : ClientState :=
  ls.foldl handleLine s

/-- The `stdout.on('data')` handler: split the chunk on line boundaries,
drop blank segments, and feed each remaining segment to the parse/handle
loop. The received chunk is not combined with any previously buffered
partial line: `ClientState` holds no carry-over buffer, exactly as the
source handler keeps none. -/
def onData (s : ClientState) (chunk : String) : ClientState :=
  processLines s (linesOf chunk)

end MCPClient

/-- Caller-supplied quality signal attached to a past interaction. -/
inductive Feedback where
  | positive
  | negative
  | neutral
deriving DecidableEq

structure MCPTool where
  name : String
  description : String
  inputSchema : Json

structure ContentItem where
  type : String
  text : Option String
  data : Option String
  mimeType : Option String

structure MCPToolResult where
  content : List ContentItem
  isError : Bool

structure ToolExecutionRequest where
  toolName : String
  parameters : Json
  context : Option String
  userIntent : Option String

structure ToolExecutionResult where
  success : Bool
  result : Option MCPToolResult
  error : Option String
  suggestions : Option (List String)

/-- `ToolUsageInfo` as built by `generateToolUsageInfo`: the `examples`,
`relatedTools` and `category` fields hold whatever JSON the model response
carried (the source performs no validation beyond the `||` defaults). -/
structure ToolUsageInfo where
  name : String
  description : String
  inputSchema : Json
  examples : Json
  relatedTools : Json
  category : Json

structure TrainingData where
  userIntent : String
  toolCall : ToolExecutionRequest
  result : ToolExecutionResult
  feedback : Feedback
  timestamp : Nat

structure ToolDiscoveryResult where
  tools : List MCPTool
  totalCount : Nat
  categories : List String

/-- The mutable fields of a `ModelBridge`: the interaction history and the
two caches, each `Map` embedded as an insertion-ordered association list
with unique keys. -/
structure BridgeState where
  trainingData : List TrainingData
  toolCache : List (String × MCPTool)
  usageExamples : List (String × ToolUsageInfo)

/-- `Map.get`. -/
def mapGet {α : Type} (m : List (String × α)) (k : String) : Option α :=
  (m.find? (fun p => p.1 == k)).map (fun p => p.2)

/-- `Map.set`: update in place when the key exists, else append. -/
def mapSet {α : Type} (m : List (String × α)) (k : String) (v : α) : List (String × α) :=
  if m.any (fun p => p.1 == k) then
    m.map (fun p => if p.1 == k then (k, v) else p)
  else m ++ [(k, v)]

/-- JavaScript `value || default` on an optional JSON property. -/
def jsOr (v : Option Json) (d : Json) : Json :=
  match v with
  | some x => if truthy x then x else d
  | none => d

/-- Property access on a parsed JSON value (`undefined` off non-objects). -/
def jprop (j : Json) (k : String) : Option Json :=
  match j with
  | .obj fs => jlookup fs k
  | _ => none

/-- JavaScript `array.slice(-n)`: the last `min n length` elements. -/
def sliceLast {α : Type} (n : Nat) (l : List α) : List α :=
  l.drop (l.length - n)

/-- `String.prototype.toLowerCase` (over the ASCII alphabet the rule table
and the protocol names use). -/
def lowerStr (s : String) : String :=
  String.mk (s.toList.map Char.toLower)

/-- Does `s` start with `sub`? -/
def startsWithChars : List Char → List Char → Bool
  | [], _ => true
  | _ :: _, [] => false
  | a :: subRest, b :: sRest => a == b && startsWithChars subRest sRest

/-- Does `s` contain `sub` as a contiguous run? -/
def containsChars (sub s : List Char) : Bool :=
  match s with
  | [] => sub.isEmpty
  | _ :: rest => startsWithChars sub s || containsChars sub rest

/-- JavaScript `haystack.includes(needle)` (substring containment). -/
def strIncludes (s sub : String) : Bool :=
  containsChars sub.toList s.toList

namespace ModelBridge

/-- `cacheAvailableTools`: clear the tool cache, then insert every tool
reported by `listTools` keyed by name. -/
def cacheAvailableTools (s : BridgeState) (tools : List MCPTool) : BridgeState :=
  { s with toolCache := tools.foldl (fun m t => mapSet m t.name t) [] }

/-- `generateToolUsageInfo`, with the Advisory Provider response passed in:
parse the response as JSON and read `examples`/`relatedTools`/`category`
with `||` defaults; on parse failure return the minimal fallback. -/
def generateToolUsageInfo (tool : MCPTool) (response : String) : ToolUsageInfo :=
  match jparse response with
  | some parsed =>
    { name := tool.name
      description := tool.description
      inputSchema := tool.inputSchema
      examples := jsOr (jprop parsed "examples") (.arr [])
      relatedTools := jsOr (jprop parsed "relatedTools") (.arr [])
      category := jsOr (jprop parsed "category") (.str "Utility") }
  | none =>
    { name := tool.name
      description := tool.description
      inputSchema := tool.inputSchema
      examples := .arr []
      relatedTools := .arr []
      category := .str "Utility" }

/-- `getToolUsage`: usage-cache hit returns immediately; otherwise the tool
must be in the tool cache (else the `Tool not found` error is thrown), the
usage info is generated and memoized. The returned flag records whether
the Advisory Provider branch ran (`generateToolUsageInfo` awaits
`modelProvider.generateResponse` exactly on that branch). -/
def getToolUsage (s : BridgeState) (toolName : String) (providerResponse : String) :
    Except String (ToolUsageInfo × BridgeState × Bool) :=
  match mapGet s.usageExamples toolName with
  | some cachedUsage => .ok (cachedUsage, s, false)
  | none =>
    match mapGet s.toolCache toolName with
    | none => .error ("Tool \x27" ++ toolName ++ "\x27 not found")
    | some tool =>
      let usageInfo := generateToolUsageInfo tool providerResponse
      .ok (usageInfo, { s with usageExamples := mapSet s.usageExamples toolName usageInfo },
           true)

/-- The precedent selection inside `optimizeToolRequest`: records for this
tool name, then positive feedback, then `slice(-5)`. -/
def relevantTraining (td : List TrainingData) (toolName : String) : List TrainingData :=
  sliceLast 5
    ((td.filter (fun d => d.toolCall.toolName == toolName)).filter
      (fun d => d.feedback == Feedback.positive))

/-- `optimizeToolRequest`, with the Advisory Provider outcome passed in
(`none` embeds a rejected `generateResponse` promise; a returned string
then goes through `JSON.parse`, whose failure also lands in the `catch`).
An unknown tool or any failure returns the original request unchanged. -/
def optimizeToolRequest (s : BridgeState) (request : ToolExecutionRequest)
    (providerResponse : Option String) : ToolExecutionRequest :=
  match mapGet s.toolCache request.toolName with
  | none => request
  | some _tool =>
    let _relevant := relevantTraining s.trainingData request.toolName
    match providerResponse.bind jparse with
    | some optimizedParams => { request with parameters := optimizedParams }
    | none => request

/-- `enhanceToolResult` returns the result as-is. -/
def enhanceToolResult (result : MCPToolResult) : MCPToolResult :=
  result

/-- `generateSuggestions`: up to 3 other cached tools, each rendered as a
`Consider using X for Y` line. -/
def generateSuggestions (s : BridgeState) (request : ToolExecutionRequest) : List String :=
  (((s.toolCache.map (fun p => p.2)).filter (fun t => t.name != request.toolName)).take 3).map
    (fun t => "Consider using \x27" ++ t.name ++ "\x27 for " ++ t.description)

/-- `generateErrorSuggestions`: the fixed three-line remediation checklist. -/
def generateErrorSuggestions (request : ToolExecutionRequest) : List String :=
  ["Check if the parameters match the expected schema for \x27" ++ request.toolName ++ "\x27",
   "Verify that all required fields are provided",
   "Try using the how_tool command to get usage examples"]

/-- `executeToolCall`, with the external outcomes passed in:
`providerResponse` is the optimizer model call outcome and `callTool` the
`mcpClient.callTool` behaviour, whose `Except.error` embeds a raised error
carrying `error.message` (or `Unknown error occurred` for a non-Error
throw). The `try` block optimizes, invokes the tool with the optimized
name and parameters, and wraps the result; the `catch` produces the
failure record. -/
def executeToolCall (s : BridgeState) (request : ToolExecutionRequest)
    (providerResponse : Option String)
    (callTool : String → Json → Except String MCPToolResult) : ToolExecutionResult :=
  let optimizedRequest := optimizeToolRequest s request providerResponse
  match callTool optimizedRequest.toolName optimizedRequest.parameters with
  | .ok result =>
    { success := !result.isError
      result := some (enhanceToolResult result)
      error := none
      suggestions := some (generateSuggestions s request) }
  | .error msg =>
    { success := false
      result := none
      error := some msg
      suggestions := some (generateErrorSuggestions request) }

/-- The history update inside `trainOnInteraction`: push the entry, then
keep only the last 1000 interactions. -/
def pushRecord (td : List TrainingData) (entry : TrainingData) : List TrainingData :=
  let td2 := td ++ [entry]
  if 1000 < td2.length then sliceLast 1000 td2 else td2

/-- `trainOnInteraction` with an explicit `userFeedback` argument. -/
def trainOnInteraction (s : BridgeState) (userIntent : String)
    (toolCall : ToolExecutionRequest) (result : ToolExecutionResult)
    (userFeedback : Feedback) (now : Nat) : BridgeState :=
  let entry : TrainingData :=
    { userIntent := userIntent, toolCall := toolCall, result := result,
      feedback := userFeedback, timestamp := now }
  { s with trainingData := pushRecord s.trainingData entry }

/-- `trainOnInteraction` called without `userFeedback`: the parameter
defaults to `neutral`. -/
def trainOnInteractionDefault (s : BridgeState) (userIntent : String)
    (toolCall : ToolExecutionRequest) (result : ToolExecutionResult) (now : Nat) : BridgeState :=
  trainOnInteraction s userIntent toolCall result Feedback.neutral now

/-- The per-tool category assignment inside `categorizeTools`: first
matching rule of the keyword table wins, default `Utility`. -/
def categorizeTool (tool : MCPTool) : String :=
  let name := lowerStr tool.name
  let desc := lowerStr tool.description
  if strIncludes name "file" || strIncludes desc "file" then "File Operations"
  else if strIncludes name "git" || strIncludes desc "git" then "Version Control"
  else if strIncludes name "search" || strIncludes desc "search" then "Search"
  else if strIncludes name "fetch" || strIncludes name "http" || strIncludes desc "web" then
    "Network"
  else if strIncludes name "memory" || strIncludes desc "memory" then "Data Storage"
  else "Utility"

/-- `categorizeTools`: the set of per-tool categories in first-insertion
order (`Set` then `Array.from`). -/
def categorizeTools (tools : List MCPTool) : List String :=
  (tools.map categorizeTool).eraseDups

/-- `discoverTools` given the current cache (the cache is repopulated
first only when empty, which `discoverToolsFull` models). -/
def discoverTools (s : BridgeState) : ToolDiscoveryResult :=
  let tools := s.toolCache.map (fun p => p.2)
  { tools := tools, totalCount := tools.length, categories := categorizeTools tools }

/-- `discoverTools` including the empty-cache repopulation, with the
`listTools` response passed in. -/
def discoverToolsFull (s : BridgeState) (freshTools : List MCPTool) :
    ToolDiscoveryResult × BridgeState :=
  let s2 := if s.toolCache.isEmpty then cacheAvailableTools s freshTools else s
  (discoverTools s2, s2)

end ModelBridge

namespace SimplifiedMCPServer

/-- JavaScript truthiness of an optional string argument. -/
def optTruthy (o : Option String) : Bool :=
  match o with
  | some s => s != ""
  | none => false

/-- JavaScript `value || default` for an optional string. -/
def jsOrElse (o : Option String) (d : String) : String :=
  match o with
  | some c => if c = "" then d else c
  | none => d

/-- The `what_tools` handler's filtering over the discovery result: the
category filter keeps each tool iff `result.categories` contains the given
string verbatim; the search filter keeps tools whose lowercased name or
description contains the lowercased term. -/
def whatToolsFilter (result : ToolDiscoveryResult)
    (category : Option String) (search : Option String) : List MCPTool :=
  let filtered := result.tools
  let filtered :=
    match category with
    | some c => if c != "" then filtered.filter (fun _ => result.categories.contains c)
                else filtered
    | none => filtered
  let filtered :=
    match search with
    | some q =>
      if q != "" then
        let searchTerm := lowerStr q
        filtered.filter (fun tool =>
          strIncludes (lowerStr tool.name) searchTerm ||
          strIncludes (lowerStr tool.description) searchTerm)
      else filtered
    | none => filtered
  filtered

/-- `useTool`: build the execution request (with `userIntent := context`,
and `context` only when defined), execute it, then record the interaction
with `trainOnInteraction` called without a feedback argument. -/
def useTool (s : BridgeState) (toolName : String) (parameters : Json)
    (context : Option String) (providerResponse : Option String)
    (callTool : String → Json → Except String MCPToolResult) (now : Nat) :
    ToolExecutionResult × BridgeState :=
  let request : ToolExecutionRequest :=
    { toolName := toolName, parameters := parameters,
      context := context, userIntent := context }
  let result := ModelBridge.executeToolCall s request providerResponse callTool
  let trainingRequest : ToolExecutionRequest :=
    { toolName := toolName, parameters := parameters,
      context := context, userIntent := none }
  let s2 := ModelBridge.trainOnInteractionDefault s
    (jsOrElse context ("Execute " ++ toolName)) trainingRequest result now
  (result, s2)

end SimplifiedMCPServer

namespace MCPClient

theorem handleMessage_of_not_pending (s : ClientState) (m : Message)
    (h : m.id ∉ s.pending) : handleMessage s m = s := by
  unfold handleMessage
  rw [if_neg]
  intro hc
  exact h hc.2

theorem processMessages_spec (ms : List Message) (s : ClientState)
    (hnd : (ms.map Message.id).Nodup) (hpend : s.pending.Nodup)
    (hmem : ∀ m ∈ ms, m.id ∈ s.pending ∧ m.id ≠ 0) :
    (processMessages s ms).settled = s.settled ++ ms.map (fun m => (m.id, settleOf m)) ∧
    (processMessages s ms).pending.Nodup ∧
    (∀ p, p ∈ (processMessages s ms).pending ↔ p ∈ s.pending ∧ p ∉ ms.map Message.id) := by
  induction ms generalizing s with
  | nil =>
    refine ⟨by simp [processMessages], hpend, ?_⟩
    intro p
    simp [processMessages]
  | cons m rest ih =>
    obtain ⟨hm, hrest⟩ := List.forall_mem_cons.mp hmem
    have hguard : m.id ≠ 0 ∧ m.id ∈ s.pending := ⟨hm.2, hm.1⟩
    have hstep : processMessages s (m :: rest)
        = processMessages { s with pending := s.pending.erase m.id,
                                   settled := s.settled ++ [(m.id, settleOf m)] } rest := by
      simp only [processMessages, List.foldl_cons, handleMessage, if_pos hguard]
    have hnd2 : (rest.map Message.id).Nodup := (List.nodup_cons.mp hnd).2
    have hnotin : m.id ∉ rest.map Message.id := (List.nodup_cons.mp hnd).1
    have hpend2 : (s.pending.erase m.id).Nodup := hpend.erase m.id
    have hmem2 : ∀ m2 ∈ rest, m2.id ∈ s.pending.erase m.id ∧ m2.id ≠ 0 := by
      intro m2 hm2
      refine ⟨?_, (hrest m2 hm2).2⟩
      have hne : m2.id ≠ m.id := by
        intro he
        exact hnotin (he ▸ List.mem_map_of_mem Message.id hm2)
      exact (List.Nodup.mem_erase_iff hpend).mpr ⟨hne, (hrest m2 hm2).1⟩
    obtain ⟨h1, h2, h3⟩ := ih { s with pending := s.pending.erase m.id, settled := s.settled ++ [(m.id, settleOf m)] } hnd2 hpend2 hmem2
    rw [hstep]
    refine ⟨by simpa using h1, h2, ?_⟩
    intro p
    rw [h3 p]
    simp only [List.map_cons, List.mem_cons, not_or]
    constructor
    · rintro ⟨hpe, hns⟩
      have hmm := (List.Nodup.mem_erase_iff hpend).mp hpe
      exact ⟨hmm.2, hmm.1, hns⟩
    · rintro ⟨hpe, hne, hns⟩
      exact ⟨(List.Nodup.mem_erase_iff hpend).mpr ⟨hne, hpe⟩, hns⟩

/-- C1. For every set of concurrently outstanding `callTool` invocations
(each with a distinct request id), and every arrival order of the matching
responses, each invocation's promise is settled exactly once, and it is
settled using the response message whose id equals that invocation's
request id: the settlement log is exactly the arrived messages keyed by id
(so each id settles with its own message), each outstanding id appears
exactly once in the log, and no entry is left pending. -/
theorem callTool_settles_each_invocation_once (ds : List Nat) (ms : List Message)
    (hnd : ds.Nodup) (hpos : ∀ d ∈ ds, d ≠ 0)
    (hperm : List.Perm (ms.map Message.id) ds) :
    (processMessages (mkPending ds) ms).settled = ms.map (fun m => (m.id, settleOf m)) ∧
    (∀ m ∈ ms, (m.id, settleOf m) ∈ (processMessages (mkPending ds) ms).settled) ∧
    (∀ d ∈ ds,
      ((processMessages (mkPending ds) ms).settled.countP (fun e => e.1 == d)) = 1) ∧
    (processMessages (mkPending ds) ms).pending = [] := by
  have hndm : (ms.map Message.id).Nodup := hperm.nodup_iff.mpr hnd
  have hmem : ∀ m ∈ ms, m.id ∈ (mkPending ds).pending ∧ m.id ≠ 0 := by
    intro m hm
    have hin : m.id ∈ ds := hperm.mem_iff.mp (List.mem_map_of_mem Message.id hm)
    exact ⟨hin, hpos m.id hin⟩
  obtain ⟨h1, _, h3⟩ := processMessages_spec ms (mkPending ds) hndm hnd hmem
  have hsettled : (processMessages (mkPending ds) ms).settled
      = ms.map (fun m => (m.id, settleOf m)) := by simpa [mkPending] using h1
  refine ⟨hsettled, ?_, ?_, ?_⟩
  · intro m hm
    rw [hsettled]
    exact List.mem_map_of_mem _ hm
  · intro d hd
    rw [hsettled, List.countP_map]
    have hcount : ms.countP ((fun e => e.1 == d) ∘ (fun m => (m.id, settleOf m)))
        = (ms.map Message.id).count d := by
      rw [List.count_eq_countP, List.countP_map]
      rfl
    rw [hcount, hperm.count_eq]
    have hle := List.nodup_iff_count_le_one.mp hnd d
    have hpos2 := List.count_pos_iff.mpr hd
    omega
  · rw [List.eq_nil_iff_forall_not_mem]
    intro p hp
    obtain ⟨hpd, hnm⟩ := (h3 p).mp hp
    exact hnm (hperm.mem_iff.mpr (by simpa [mkPending] using hpd))

theorem callTool_settles_each_invocation_once_witness :
    (processMessages (mkPending [1, 2])
        [⟨2, none, .str "r2"⟩, ⟨1, none, .str "r1"⟩]).settled
      = [(2, Outcome.resolved (.str "r2")), (1, Outcome.resolved (.str "r1"))] ∧
    (processMessages (mkPending [1, 2])
        [⟨2, none, .str "r2"⟩, ⟨1, none, .str "r1"⟩]).pending = [] := by
  have h := callTool_settles_each_invocation_once [1, 2]
    [⟨2, none, .str "r2"⟩, ⟨1, none, .str "r1"⟩]
    (by decide) (by decide) (by decide)
  exact ⟨h.1.trans rfl, h.2.2.2⟩

/-- An id that is not pending and is at most the id counter stays that way
under every further event (new requests always take strictly larger ids,
and handling or timing out other requests only removes entries). -/
def idRetired (id : Nat) (s : ClientState) : Prop :=
  id ∉ s.pending ∧ id ≤ s.messageId

theorem idRetired_step (id : Nat) (s : ClientState) (e : Event)
    (h : idRetired id s) : idRetired id (stepEv s e) := by
  obtain ⟨hnp, hle⟩ := h
  cases e with
  | send =>
    refine ⟨?_, by simp [stepEv, sendRequest, getNextId]; omega⟩
    simp only [stepEv, sendRequest, getNextId]
    intro hc
    rcases List.mem_append.mp hc with hc1 | hc2
    · exact hnp hc1
    · have : id = s.messageId + 1 := by simpa using hc2
      omega
  | recv m =>
    simp only [stepEv, handleMessage]
    by_cases hg : m.id ≠ 0 ∧ m.id ∈ s.pending
    · rw [if_pos hg]
      exact ⟨fun hc => hnp (List.mem_of_mem_erase hc), hle⟩
    · rw [if_neg hg]
      exact ⟨hnp, hle⟩
  | fire tid =>
    simp only [stepEv, timeoutFire]
    by_cases hg : tid ∈ s.pending
    · rw [if_pos hg]
      exact ⟨fun hc => hnp (List.mem_of_mem_erase hc), hle⟩
    · rw [if_neg hg]
      exact ⟨hnp, hle⟩

theorem idRetired_run (id : Nat) (s : ClientState) (evs : List Event)
    (h : idRetired id s) : idRetired id (runEvents s evs) := by
  induction evs generalizing s with
  | nil => exact h
  | cons e rest ih =>
    exact ih (stepEv s e) (idRetired_step id s e h)

/-- C2. A request whose matching response does not arrive within the
30-second timeout window fails with the timeout rejection (the spec's
`TimeoutError`: the code rejects with `Request N timed out`) and its entry
is deleted from the pending-call table; and after the timeout — across any
further sequence of sends, receipts and timer firings — a late response
bearing that id is ignored by `handleMessage` and is never applied to any
pending call, because ids are allocated strictly increasing and never
reused. -/
theorem timeout_rejects_and_late_response_ignored (s : ClientState) (id : Nat)
    (hmem : id ∈ s.pending) (hnd : s.pending.Nodup)
    (hbound : ∀ p ∈ s.pending, p ≤ s.messageId) :
    (timeoutFire s id).settled = s.settled ++ [(id, Outcome.timedOut)] ∧
    id ∉ (timeoutFire s id).pending ∧
    (∀ evs : List Event, ∀ m : Message, m.id = id →
       handleMessage (runEvents (timeoutFire s id) evs) m
         = runEvents (timeoutFire s id) evs) := by
  have hfire : timeoutFire s id
      = { s with pending := s.pending.erase id,
                 settled := s.settled ++ [(id, Outcome.timedOut)] } := by
    simp [timeoutFire, if_pos hmem]
  have hretired : idRetired id (timeoutFire s id) := by
    rw [hfire]
    refine ⟨?_, hbound id hmem⟩
    intro hc
    exact ((List.Nodup.mem_erase_iff hnd).mp hc).1 rfl
  refine ⟨by rw [hfire], hretired.1, ?_⟩
  intro evs m hm
  apply handleMessage_of_not_pending
  rw [hm]
  exact (idRetired_run id (timeoutFire s id) evs hretired).1

theorem timeout_rejects_and_late_response_ignored_witness :
    (timeoutFire (mkPending [1]) 1).settled = [(1, Outcome.timedOut)] ∧
    handleMessage (runEvents (timeoutFire (mkPending [1]) 1) [.send])
        ⟨1, none, .str "late"⟩
      = runEvents (timeoutFire (mkPending [1]) 1) [.send] := by
  have h := timeout_rejects_and_late_response_ignored (mkPending [1]) 1
    (by decide) (by decide) (by decide)
  exact ⟨h.1.trans rfl, h.2.2 [.send] ⟨1, none, .str "late"⟩ rfl⟩

/-- A complete `tools/call`-style success frame. -/
def frameWhole : String :=
  "\x7b\"jsonrpc\": \"2.0\", \"id\": 1, \"result\": \"ok\"\x7d"

/-- The first part of `frameWhole`, as delivered by a first stream read. -/
def frameFirst : String := "\x7b\"jsonrpc\": \"2.0\", \"id\""

/-- The remainder of `frameWhole` plus the closing newline, as delivered
by a second stream read. -/
def frameRest : String := ": 1, \"result\": \"ok\"\x7d\n"

/-- C3 counterexample. The frame for pending request 1 arrives split
across two stream reads. The data handler reconstructs nothing: after
both reads no message has been processed (nothing is settled and request
1 is still pending), whereas the same bytes arriving within a single read
settle request 1 with exactly the one framed message. The claimed
cross-read partial-line buffering therefore does not exist in the code. -/
theorem split_frame_is_not_reconstructed :
    ((onData (onData (mkPending [1]) frameFirst) frameRest).settled = [] ∧
     (onData (onData (mkPending [1]) frameFirst) frameRest).pending = [1]) ∧
    (onData (mkPending [1]) (frameFirst ++ frameRest)).settled
      = [(1, Outcome.resolved (.str "ok"))] ∧
    (onData (mkPending [1]) (frameFirst ++ frameRest)).pending = [] :=
  ⟨⟨rfl, rfl⟩, rfl, rfl⟩

/-- C3 amended. The Transport Client does not buffer partial lines across
reads: two consecutive reads are processed exactly as the concatenation
of their independently computed line lists, so a fragment of a frame at
the end of one read is parsed (and, being malformed, reported and
dropped) on its own instead of being joined with the rest arriving in the
next read. Within one read, the chunk is split on line boundaries and
each nonblank complete line is parsed and handled as one message. -/
theorem onData_splits_each_read_independently (s : ClientState) (c1 c2 : String) :
    onData (onData s c1) c2 = processLines s (linesOf c1 ++ linesOf c2) ∧
    (∀ l ls, processLines s (l :: ls) = processLines (handleLine s l) ls) := by
  constructor
  · simp [onData, processLines, List.foldl_append]
  · intro l ls
    rfl

end MCPClient

/-- State of a connecting or connected client together with the promise
returned by `connect()` (`none` while unsettled). -/
structure ConnState where
  client : ClientState
  connectSettled : Option (Except String Unit)

namespace MCPClient

/-- The `process.on('error')` handler: `if (!this.connected) reject(error)`
(rejecting an already-settled promise is a no-op). -/
def onProcError (s : ConnState) (err : String) : ConnState :=
  match s.client.connected, s.connectSettled with
  | false, none => { s with connectSettled := some (.error err) }
  | _, _ => s

/-- The `process.on('exit')` handler: it logs the exit code and sets
`this.connected = false` — it touches neither `pendingRequests` nor the
connect promise. -/
def onProcExit (s : ConnState) : ConnState :=
  { s with client := onExit s.client }

/-- C4 counterexample. Left: the process exits before the handshake
response (connect pending, `initialize` request 1 outstanding) — the exit
handler settles nothing: `connect()` has not failed and the handshake
request is still pending. Right: the process exits unexpectedly while
connected with calls 2 and 3 outstanding — the client is marked
disconnected but no pending call is failed (with a `TransportError` or
anything else): the settlement log stays empty and both entries stay
pending. -/
theorem process_exit_fails_nothing :
    (let s : ConnState :=
       { client := { messageId := 1, pending := [1], settled := [], connected := false },
         connectSettled := none }
     (onProcExit s).connectSettled = none ∧
       (onProcExit s).client.settled = [] ∧ (onProcExit s).client.pending = [1]) ∧
    (let t : ConnState :=
       { client := { messageId := 3, pending := [2, 3], settled := [], connected := true },
         connectSettled := some (.ok ()) }
     (onProcExit t).client.connected = false ∧
       (onProcExit t).client.settled = [] ∧ (onProcExit t).client.pending = [2, 3]) :=
  ⟨⟨rfl, rfl, rfl⟩, ⟨rfl, rfl, rfl⟩⟩

/-- C4 amended. `connect()` fails when the process emits an `error` event
before the handshake has completed (the promise is rejected with that
error). A process exit — whether before or after the handshake — only
marks the client disconnected: the exit handler settles neither the
connect promise nor any pending call, so outstanding requests (the
handshake request included) fail only through their individual 30-second
timeouts. -/
theorem process_failure_handling (s : ConnState) (err : String) (id : Nat) :
    (s.client.connected = false → s.connectSettled = none →
       (onProcError s err).connectSettled = some (.error err)) ∧
    ((onProcExit s).client.connected = false ∧
     (onProcExit s).client.pending = s.client.pending ∧
     (onProcExit s).client.settled = s.client.settled ∧
     (onProcExit s).connectSettled = s.connectSettled) ∧
    (id ∈ s.client.pending →
       (timeoutFire s.client id).settled = s.client.settled ++ [(id, Outcome.timedOut)]) := by
  refine ⟨?_, ⟨rfl, rfl, rfl, rfl⟩, ?_⟩
  · intro hc hn
    simp [onProcError, hc, hn]
  · intro hmem
    simp [timeoutFire, if_pos hmem]

theorem process_failure_handling_witness :
    (onProcError
        { client := { messageId := 1, pending := [1], settled := [], connected := false },
          connectSettled := none } "spawn failed").connectSettled
      = some (.error "spawn failed") ∧
    (timeoutFire { messageId := 1, pending := [1], settled := [], connected := false }
        1).settled = [(1, Outcome.timedOut)] := by
  have h := process_failure_handling
    { client := { messageId := 1, pending := [1], settled := [], connected := false },
      connectSettled := none } "spawn failed" 1
  exact ⟨h.1 rfl rfl, (h.2.2 (by decide)).trans rfl⟩

end MCPClient

def echoTool : MCPTool :=
  { name := "echo", description := "Repeats the message", inputSchema := .null }

def searchTool : MCPTool :=
  { name := "search_documents", description := "Search the archive", inputSchema := .null }

def emptyBridge : BridgeState :=
  { trainingData := [], toolCache := [], usageExamples := [] }

/-- The canned output of the mock model provider. -/
def mockResponse : String :=
  "\x7b\"examples\": [], \"relatedTools\": [], \"category\": \"Utility\"\x7d"

def sampleRequest : ToolExecutionRequest :=
  { toolName := "echo", parameters := .null, context := none, userIntent := none }

/-- A `callTool` behaviour whose every invocation raises. -/
def failingCall : String → Json → Except String MCPToolResult :=
  fun _ _ => .error "boom"

namespace ModelBridge

/-- C5. `executeToolCall` never raises: for every request, every Advisory
Provider outcome and every `callTool` behaviour it returns a structured
result record that always carries `suggestions` and either a result
payload or an error message; and whenever the underlying call raises, the
record has `success = false`, `error` holding the raised error's message,
and the non-empty fixed three-line remediation checklist as suggestions. -/
theorem execute_never_raises (s : BridgeState) (request : ToolExecutionRequest)
    (providerResponse : Option String)
    (callTool : String → Json → Except String MCPToolResult) :
    ((executeToolCall s request providerResponse callTool).suggestions.isSome ∧
     ((executeToolCall s request providerResponse callTool).result.isSome ∨
      (executeToolCall s request providerResponse callTool).error.isSome)) ∧
    (∀ msg, callTool (optimizeToolRequest s request providerResponse).toolName
          (optimizeToolRequest s request providerResponse).parameters = .error msg →
       (executeToolCall s request providerResponse callTool).success = false ∧
       (executeToolCall s request providerResponse callTool).error = some msg ∧
       (executeToolCall s request providerResponse callTool).suggestions
         = some (generateErrorSuggestions request) ∧
       generateErrorSuggestions request ≠ []) := by
  cases hc : callTool (optimizeToolRequest s request providerResponse).toolName
      (optimizeToolRequest s request providerResponse).parameters with
  | ok r =>
    refine ⟨⟨by simp [executeToolCall, hc], by simp [executeToolCall, hc]⟩, ?_⟩
    intro msg hmsg
    exact absurd hmsg (by simp)
  | error msg0 =>
    refine ⟨⟨by simp [executeToolCall, hc], by simp [executeToolCall, hc]⟩, ?_⟩
    intro msg hmsg
    injection hmsg with hmm
    subst hmm
    refine ⟨?_, ?_, ?_, ?_⟩
    · simp [executeToolCall, hc]
    · simp [executeToolCall, hc]
    · simp [executeToolCall, hc]
    · simp [generateErrorSuggestions]

theorem execute_never_raises_witness :
    (executeToolCall emptyBridge sampleRequest none failingCall).success = false ∧
    (executeToolCall emptyBridge sampleRequest none failingCall).error = some "boom" ∧
    (executeToolCall emptyBridge sampleRequest none failingCall).suggestions
      = some (generateErrorSuggestions sampleRequest) := by
  have h := (execute_never_raises emptyBridge sampleRequest none failingCall).2 "boom" rfl
  exact ⟨h.1, h.2.1, h.2.2.1⟩

theorem mapGet_cons {α : Type} (p : String × α) (rest : List (String × α)) (k : String) :
    mapGet (p :: rest) k = if p.1 == k then some p.2 else mapGet rest k := by
  by_cases hpk : (p.1 == k) = true
  · simp [mapGet, List.find?_cons, hpk]
  · simp only [Bool.not_eq_true] at hpk
    simp [mapGet, List.find?_cons, hpk]

theorem mapGet_mapSet_self {α : Type} (m : List (String × α)) (k : String) (v : α) :
    mapGet (mapSet m k v) k = some v := by
  induction m with
  | nil => simp [mapGet, mapSet]
  | cons p rest ih =>
    by_cases hpk : (p.1 == k) = true
    · have hany : ((p :: rest).any fun q => q.1 == k) = true := by
        simp [List.any_cons, hpk]
      simp only [mapSet, hany, if_true, List.map_cons, hpk, if_pos]
      rw [mapGet_cons]
      simp
    · have hstep : mapSet (p :: rest) k v = p :: mapSet rest k v := by
        by_cases hr : (rest.any fun q => q.1 == k) = true
        · have hany : ((p :: rest).any fun q => q.1 == k) = true := by
            simp [List.any_cons, hr]
          simp only [mapSet, hany, if_true, List.map_cons, hr]
          congr 1
          simp only [Bool.not_eq_true] at hpk
          simp [hpk]
        · have hany : ((p :: rest).any fun q => q.1 == k) = false := by
            simp only [Bool.not_eq_true] at hpk
            simp only [Bool.not_eq_true] at hr
            simp [List.any_cons, hpk, hr]
          simp [mapSet, hany, hr, hpk]
      rw [hstep, mapGet_cons]
      simp only [Bool.not_eq_true] at hpk
      simp [hpk, ih]

/-- The bridge state reached from a fresh bridge by discovering the
`echo` tool and memoizing its usage info. -/
def usageCachedState : BridgeState :=
  { trainingData := [],
    toolCache := [("echo", echoTool)],
    usageExamples := [("echo", generateToolUsageInfo echoTool mockResponse)] }

/-- C6 counterexample. Reachable violation of `UsageInfo is never returned
for a name whose ToolDescriptor is not currently in the tool cache`: from
a fresh bridge, cache the `echo` tool, memoize its usage info via
`getToolUsage`, then re-discover with `echo` gone (`cacheAvailableTools`
clears only the tool cache, not the usage cache). `echo` is now absent
from the tool cache, yet `getToolUsage` still returns its stale UsageInfo
instead of failing with `ToolNotFoundError`. -/
theorem stale_usage_returned_after_rediscovery :
    getToolUsage (cacheAvailableTools emptyBridge [echoTool]) "echo" mockResponse
      = .ok (generateToolUsageInfo echoTool mockResponse, usageCachedState, true) ∧
    mapGet (cacheAvailableTools usageCachedState []).toolCache "echo" = none ∧
    getToolUsage (cacheAvailableTools usageCachedState []) "echo" "ignored"
      = .ok (generateToolUsageInfo echoTool mockResponse,
             cacheAvailableTools usageCachedState [], false) :=
  ⟨rfl, rfl, rfl⟩

/-- C6 amended. `getToolUsage` fails with `ToolNotFoundError` exactly when
the name is in neither the usage cache nor the tool cache — the usage
cache is consulted first and survives re-discovery, so a memoized
UsageInfo is returned even for a name no longer in the tool cache. For a
known tool the call memoizes, and any second call returns the memoized
value without invoking the Advisory Provider again. -/
theorem usage_unknown_fails_and_memoizes (s : BridgeState) (toolName : String)
    (r r2 : String) :
    (mapGet s.usageExamples toolName = none → mapGet s.toolCache toolName = none →
       getToolUsage s toolName r = .error ("Tool \x27" ++ toolName ++ "\x27 not found")) ∧
    (∀ e, getToolUsage s toolName r = .error e →
       mapGet s.usageExamples toolName = none ∧ mapGet s.toolCache toolName = none ∧
       e = "Tool \x27" ++ toolName ++ "\x27 not found") ∧
    (∀ info s2 b, getToolUsage s toolName r = .ok (info, s2, b) →
       getToolUsage s2 toolName r2 = .ok (info, s2, false)) := by
  refine ⟨?_, ?_, ?_⟩
  · intro hu ht
    simp [getToolUsage, hu, ht]
  · intro e herr
    cases hu : mapGet s.usageExamples toolName with
    | some cached =>
      rw [getToolUsage, hu] at herr
      exact absurd herr (by simp)
    | none =>
      cases ht : mapGet s.toolCache toolName with
      | some tool =>
        rw [getToolUsage, hu, ht] at herr
        exact absurd herr (by simp)
      | none =>
        rw [getToolUsage, hu, ht] at herr
        injection herr with he
        exact ⟨rfl, rfl, he.symm⟩
  · intro info s2 b hok
    cases hu : mapGet s.usageExamples toolName with
    | some cached =>
      rw [getToolUsage, hu] at hok
      injection hok with h1
      injection h1 with hinfo hrest
      injection hrest with hs2 hb
      subst hinfo
      subst hs2
      rw [getToolUsage, hu]
    | none =>
      rw [getToolUsage, hu] at hok
      cases ht : mapGet s.toolCache toolName with
      | none =>
        rw [ht] at hok
        exact absurd hok (by simp)
      | some tool =>
        rw [ht] at hok
        injection hok with h1
        injection h1 with hinfo hrest
        injection hrest with hs2 hb
        subst hinfo
        subst hs2
        rw [getToolUsage]
        simp only [mapGet_mapSet_self]

theorem usage_unknown_fails_and_memoizes_witness :
    getToolUsage emptyBridge "echo" mockResponse
      = .error ("Tool \x27echo\x27 not found") ∧
    getToolUsage usageCachedState "echo" "later call"
      = .ok (generateToolUsageInfo echoTool mockResponse, usageCachedState, false) := by
  have h1 := (usage_unknown_fails_and_memoizes emptyBridge "echo" mockResponse "x").1 rfl rfl
  have h2 := (usage_unknown_fails_and_memoizes
      (cacheAvailableTools emptyBridge [echoTool]) "echo" mockResponse "later call").2.2
    (generateToolUsageInfo echoTool mockResponse) usageCachedState true rfl
  exact ⟨h1, h2⟩

end ModelBridge

def emptyResult : ToolExecutionResult :=
  { success := true, result := none, error := none, suggestions := none }

def positiveRecord (i : Nat) : TrainingData :=
  { userIntent := "", toolCall := sampleRequest, result := emptyResult,
    feedback := .positive, timestamp := i }

def neutralRecord (i : Nat) : TrainingData :=
  { userIntent := "", toolCall := sampleRequest, result := emptyResult,
    feedback := .neutral, timestamp := i }

namespace ModelBridge

/-- C7. The optimize stage's precedent selection is exactly the most
recent at-most-5 history records whose `toolCall.toolName` equals the
request's tool name and whose feedback is positive: the selection equals
the last-5 slice of the conjunctively filtered history, it is a suffix of
that filtered history (the most recent records, in order), and its length
is `min 5` the number of matching records. And whenever the Advisory
Provider's response fails to parse (a rejected provider call or invalid
JSON), `optimizeToolRequest` returns the caller's request unchanged, so
the tool is invoked with the original parameters. -/
theorem optimize_selects_recent_positive_and_falls_back
    (td : List TrainingData) (toolName : String) :
    (relevantTraining td toolName
       = sliceLast 5 (td.filter (fun d => d.toolCall.toolName == toolName
           && d.feedback == Feedback.positive)) ∧
     relevantTraining td toolName
       <:+ td.filter (fun d => d.toolCall.toolName == toolName
           && d.feedback == Feedback.positive) ∧
     (relevantTraining td toolName).length
       = min 5 (td.filter (fun d => d.toolCall.toolName == toolName
           && d.feedback == Feedback.positive)).length) ∧
    (∀ (s : BridgeState) (request : ToolExecutionRequest) (resp : Option String),
       resp.bind jparse = none → optimizeToolRequest s request resp = request) := by
  have hff : (td.filter (fun d => d.toolCall.toolName == toolName)).filter
      (fun d => d.feedback == Feedback.positive)
      = td.filter (fun d => d.toolCall.toolName == toolName
          && d.feedback == Feedback.positive) := by
    rw [List.filter_filter]
    exact List.filter_congr (fun a _ => Bool.and_comm _ _)
  refine ⟨⟨?_, ?_, ?_⟩, ?_⟩
  · rw [relevantTraining, hff]
  · rw [relevantTraining, hff]
    exact List.drop_suffix _ _
  · rw [relevantTraining, hff]
    simp only [sliceLast, List.length_drop]
    omega
  · intro s request resp hparse
    rw [optimizeToolRequest]
    cases hm : mapGet s.toolCache request.toolName with
    | none => rfl
    | some tool => rw [hparse]

theorem optimize_selects_recent_positive_and_falls_back_witness :
    relevantTraining
        [positiveRecord 0, positiveRecord 1, positiveRecord 2, positiveRecord 3,
         positiveRecord 4, positiveRecord 5, positiveRecord 6] "echo"
      = [positiveRecord 2, positiveRecord 3, positiveRecord 4,
         positiveRecord 5, positiveRecord 6] ∧
    optimizeToolRequest usageCachedState sampleRequest (some "not json")
      = sampleRequest := by
  have h := optimize_selects_recent_positive_and_falls_back
    [positiveRecord 0, positiveRecord 1, positiveRecord 2, positiveRecord 3,
     positiveRecord 4, positiveRecord 5, positiveRecord 6] "echo"
  exact ⟨h.1.1.trans rfl, h.2 usageCachedState sampleRequest (some "not json") rfl⟩

/-- Every record in the post-push history was already in the history or is
the pushed entry. -/
theorem mem_pushRecord (td : List TrainingData) (e d : TrainingData)
    (h : d ∈ pushRecord td e) : d ∈ td ∨ d = e := by
  have hsub : d ∈ td ++ [e] := by
    unfold pushRecord at h
    by_cases hl : 1000 < (td ++ [e]).length
    · rw [if_pos hl] at h
      exact List.mem_of_mem_drop h
    · rwa [if_neg hl] at h
  simpa using List.mem_append.mp hsub

theorem pushRecord_sliceLast (td : List TrainingData) (e : TrainingData) :
    pushRecord td e = sliceLast 1000 (td ++ [e]) ∧ (pushRecord td e).length ≤ 1000 := by
  by_cases hl : 1000 < (td ++ [e]).length
  · have h1 : pushRecord td e = sliceLast 1000 (td ++ [e]) := by
      simp only [pushRecord]
      rw [if_pos hl]
    refine ⟨h1, ?_⟩
    rw [h1]
    unfold sliceLast
    rw [List.length_drop]
    omega
  · have h1 : pushRecord td e = td ++ [e] := by
      simp only [pushRecord]
      rw [if_neg hl]
    have h0 : (td ++ [e]).length - 1000 = 0 := Nat.sub_eq_zero_of_le (Nat.not_lt.mp hl)
    refine ⟨?_, ?_⟩
    · rw [h1]
      unfold sliceLast
      rw [h0, List.drop_zero]
    · rw [h1]
      exact Nat.not_lt.mp hl

theorem drop_append_drop {α : Type} (d a : Nat) (l r : List α) (hd : d ≤ l.length) :
    (l ++ r).drop (d + a) = (l.drop d ++ r).drop a := by
  rw [← List.drop_drop]
  rw [List.drop_append_of_le_length hd]

theorem sliceLast_append_left {α : Type} (l r : List α) :
    sliceLast 1000 (sliceLast 1000 l ++ r) = sliceLast 1000 (l ++ r) := by
  by_cases h : l.length ≤ 1000
  · have h0 : l.length - 1000 = 0 := Nat.sub_eq_zero_of_le h
    simp [sliceLast, h0]
  · have hlt : 1000 < l.length := Nat.not_le.mp h
    have hd : l.length - 1000 ≤ l.length := Nat.sub_le _ _
    have hlen : (l.drop (l.length - 1000) ++ r).length - 1000 = r.length := by
      rw [List.length_append, List.length_drop]
      omega
    have key := drop_append_drop (l.length - 1000) r.length l r hd
    have harith : l.length - 1000 + r.length = (l ++ r).length - 1000 := by
      rw [List.length_append]
      omega
    unfold sliceLast
    rw [hlen, ← harith, key]

theorem foldl_pushRecord (es : List TrainingData) (td : List TrainingData)
    (h : td.length ≤ 1000) :
    es.foldl pushRecord td = sliceLast 1000 (td ++ es) := by
  induction es generalizing td with
  | nil =>
    have h0 : td.length - 1000 = 0 := Nat.sub_eq_zero_of_le h
    simp [sliceLast, h0]
  | cons e rest ih =>
    obtain ⟨he, hlen⟩ := pushRecord_sliceLast td e
    calc (e :: rest).foldl pushRecord td
        = rest.foldl pushRecord (pushRecord td e) := rfl
      _ = sliceLast 1000 (pushRecord td e ++ rest) := ih (pushRecord td e) hlen
      _ = sliceLast 1000 (sliceLast 1000 (td ++ [e]) ++ rest) := by rw [he]
      _ = sliceLast 1000 ((td ++ [e]) ++ rest) := sliceLast_append_left _ _
      _ = sliceLast 1000 (td ++ e :: rest) := by simp

/-- One front-surface `record` operation applied to the bridge state. -/
def applyRecord (s : BridgeState) (a : TrainingData) : BridgeState :=
  trainOnInteraction s a.userIntent a.toolCall a.result a.feedback a.timestamp

theorem foldl_applyRecord (es : List TrainingData) (s : BridgeState) :
    (es.foldl applyRecord s).trainingData = es.foldl pushRecord s.trainingData := by
  induction es generalizing s with
  | nil => rfl
  | cons e rest ih => exact ih (applyRecord s e)

/-- C9. After every sequence of record operations on a fresh bridge the
interaction history holds at most 1000 records; and after inserting 1001
records the history is exactly the inserted sequence minus its first
element (the newest 1000 in insertion order), so the first-inserted
record — when not re-inserted later — is absent: FIFO eviction of the
oldest. -/
theorem history_capacity_and_fifo (es : List TrainingData) :
    (es.foldl applyRecord emptyBridge).trainingData.length ≤ 1000 ∧
    (es.length = 1001 → (es.foldl applyRecord emptyBridge).trainingData = es.drop 1) ∧
    (∀ e : TrainingData, es.length = 1001 → es.head? = some e → e ∉ es.drop 1 →
       e ∉ (es.foldl applyRecord emptyBridge).trainingData) := by
  have hbase : (es.foldl applyRecord emptyBridge).trainingData = sliceLast 1000 es := by
    rw [foldl_applyRecord]
    have hfp := foldl_pushRecord es [] (by simp)
    simpa [emptyBridge] using hfp
  refine ⟨?_, ?_, ?_⟩
  · rw [hbase]
    simp only [sliceLast, List.length_drop]
    omega
  · intro h1001
    rw [hbase]
    simp [sliceLast, h1001]
  · intro e h1001 hh hnot
    rw [hbase]
    have hs : sliceLast 1000 es = es.drop 1 := by simp [sliceLast, h1001]
    rw [hs]
    exact hnot

theorem history_capacity_and_fifo_witness :
    ((neutralRecord 0 :: List.replicate 1000 (neutralRecord 1)).foldl applyRecord
        emptyBridge).trainingData = List.replicate 1000 (neutralRecord 1) ∧
    neutralRecord 0 ∉ ((neutralRecord 0 :: List.replicate 1000 (neutralRecord 1)).foldl
        applyRecord emptyBridge).trainingData := by
  have h := history_capacity_and_fifo
    (neutralRecord 0 :: List.replicate 1000 (neutralRecord 1))
  have hlen : (neutralRecord 0 :: List.replicate 1000 (neutralRecord 1)).length = 1001 := by
    simp
  have hdrop : (neutralRecord 0 :: List.replicate 1000 (neutralRecord 1)).drop 1
      = List.replicate 1000 (neutralRecord 1) := rfl
  have hnot : neutralRecord 0
      ∉ (neutralRecord 0 :: List.replicate 1000 (neutralRecord 1)).drop 1 := by
    rw [hdrop]
    intro hc
    have heq := List.eq_of_mem_replicate hc
    have ht : (neutralRecord 0).timestamp = (neutralRecord 1).timestamp := by rw [heq]
    simp [neutralRecord] at ht
  exact ⟨(h.2.1 hlen).trans hdrop, h.2.2 (neutralRecord 0) hlen rfl hnot⟩

end ModelBridge

namespace SimplifiedMCPServer

/-- C8 counterexample. With the cached tools `search_documents` (derived
category `Search`) and `echo` (derived category `Utility`): filtering by
category `Search` returns both tools — including `echo`, whose derived
category does not match — because the filter only tests whether the
result's category list contains the given string; and filtering by
category `search`, which matches `search_documents`'s derived category
ignoring case, returns nothing, because that containment test is
case-sensitive. -/
theorem category_filter_not_per_tool_nor_case_insensitive :
    ModelBridge.categorizeTool echoTool = "Utility" ∧
    whatToolsFilter (ModelBridge.discoverTools
        (ModelBridge.cacheAvailableTools emptyBridge [searchTool, echoTool]))
      (some "Search") none = [searchTool, echoTool] ∧
    lowerStr (ModelBridge.categorizeTool searchTool) = "search" ∧
    whatToolsFilter (ModelBridge.discoverTools
        (ModelBridge.cacheAvailableTools emptyBridge [searchTool, echoTool]))
      (some "search") none = [] :=
  ⟨rfl, rfl, rfl, rfl⟩

/-- C8 amended. In the `what_tools` handler, the search filter is
case-insensitive: a tool passes iff its lowercased name or description
contains the lowercased term. The category filter, however, is
case-sensitive and all-or-nothing: a tool passes iff the discovery
result's category list contains the given string verbatim — a condition
independent of the tool itself — so under a category filter either every
tool is returned or none is. -/
theorem discover_filter_semantics (result : ToolDiscoveryResult)
    (category search : Option String) (t : MCPTool) :
    t ∈ whatToolsFilter result category search ↔
      t ∈ result.tools ∧
      (∀ c, category = some c → c ≠ "" → result.categories.contains c = true) ∧
      (∀ q, search = some q → q ≠ "" →
         (strIncludes (lowerStr t.name) (lowerStr q)
           || strIncludes (lowerStr t.description) (lowerStr q)) = true) := by
  unfold whatToolsFilter
  cases category with
  | none =>
    cases search with
    | none => simp
    | some q =>
      by_cases hq : q = ""
      · subst hq
        simp
      · have hq2 : (q != "") = true := by simpa using hq
        simp [hq2, List.mem_filter, hq]
  | some c =>
    by_cases hc : c = ""
    · subst hc
      cases search with
      | none => simp
      | some q =>
        by_cases hq : q = ""
        · subst hq
          simp
        · have hq2 : (q != "") = true := by simpa using hq
          simp [hq2, List.mem_filter, hq]
    · have hc2 : (c != "") = true := by simpa using hc
      cases search with
      | none => simp [hc2, List.mem_filter, hc]
      | some q =>
        by_cases hq : q = ""
        · subst hq
          simp [hc2, List.mem_filter, hc]
        · have hq2 : (q != "") = true := by simpa using hq
          simp [hc2, hq2, List.mem_filter, hc, hq]
          tauto

theorem discover_filter_semantics_witness :
    echoTool ∈ whatToolsFilter (ModelBridge.discoverTools
        (ModelBridge.cacheAvailableTools emptyBridge [searchTool, echoTool]))
      (some "Search") none := by
  refine (discover_filter_semantics _ (some "Search") none echoTool).mpr ⟨?_, ?_, ?_⟩
  · have htools : (ModelBridge.discoverTools
        (ModelBridge.cacheAvailableTools emptyBridge [searchTool, echoTool])).tools
        = [searchTool, echoTool] := rfl
    rw [htools]
    exact List.mem_cons_of_mem _ (List.mem_cons_self _ _)
  · intro c hsome hne
    cases hsome
    rfl
  · intro q hsome
    cases hsome

/-- C10. Every `useTool` invocation records its interaction with feedback
`neutral` (the omitted-argument default of `trainOnInteraction`): the
post-state history is the pre-state history pushed with one
neutral-feedback entry, every history record is either pre-existing or
neutral, and consequently — whenever the pre-state history contains no
positive record (in particular when it was produced by `useTool` calls
alone) — the optimize stage's positive-feedback precedent selection is
empty for every tool name. -/
theorem useTool_records_neutral_feedback (s : BridgeState) (toolName : String)
    (parameters : Json) (context : Option String) (providerResponse : Option String)
    (callTool : String → Json → Except String MCPToolResult) (now : Nat) :
    (∃ entry : TrainingData,
       (useTool s toolName parameters context providerResponse callTool now).2.trainingData
         = ModelBridge.pushRecord s.trainingData entry ∧
       entry.feedback = Feedback.neutral) ∧
    (∀ d ∈ (useTool s toolName parameters context providerResponse callTool now).2.trainingData,
       d ∈ s.trainingData ∨ d.feedback = Feedback.neutral) ∧
    ((∀ d ∈ s.trainingData, d.feedback ≠ Feedback.positive) → ∀ n,
       ModelBridge.relevantTraining
         (useTool s toolName parameters context providerResponse callTool now).2.trainingData
         n = []) := by
  obtain ⟨entry, hEq, hNeutral⟩ :
      ∃ entry : TrainingData,
        (useTool s toolName parameters context providerResponse callTool now).2.trainingData
          = ModelBridge.pushRecord s.trainingData entry ∧
        entry.feedback = Feedback.neutral := ⟨_, rfl, rfl⟩
  refine ⟨⟨entry, hEq, hNeutral⟩, ?_, ?_⟩
  · intro d hd
    rw [hEq] at hd
    rcases ModelBridge.mem_pushRecord _ _ _ hd with h1 | h1
    · exact Or.inl h1
    · refine Or.inr ?_
      rw [h1]
      exact hNeutral
  · intro hall n
    rw [hEq]
    unfold ModelBridge.relevantTraining
    have hnil : ((ModelBridge.pushRecord s.trainingData entry).filter
          (fun d => d.toolCall.toolName == n)).filter
          (fun d => d.feedback == Feedback.positive) = [] := by
      rw [List.filter_eq_nil_iff]
      intro a ha
      have ha2 := (List.mem_filter.mp ha).1
      rcases ModelBridge.mem_pushRecord _ _ _ ha2 with h1 | h1
      · simpa using hall a h1
      · rw [h1]
        simp [hNeutral]
    rw [hnil]
    rfl

theorem useTool_records_neutral_feedback_witness :
    (useTool emptyBridge "echo" Json.null none none failingCall 0).2.trainingData.length
      = 1 ∧
    ModelBridge.relevantTraining
      (useTool emptyBridge "echo" Json.null none none failingCall 0).2.trainingData
      "echo" = [] := by
  have h := useTool_records_neutral_feedback emptyBridge "echo" Json.null none none
    failingCall 0
  exact ⟨rfl, h.2.2 (by simp [emptyBridge]) "echo"⟩

end SimplifiedMCPServer

end MITM
